import Mathlib

/-!
Shallow embedding of the `LibraryKeyManagement` engine of `src/main.py`.

The embedded state mirrors the engine's mutable state and durable tables:

* `current_student` — the `self.current_student` field (a Python string or `None`;
  an active session is a non-empty string);
* `entries` — the rows of the `student_entries` table in insertion (rowid) order;
* `next_id` — the next `AUTOINCREMENT` id for `student_entries`;
* `available_keys` / `borrowed_keys` — the two in-memory key-ID sets;
* `pending_writes` — the asynchronous mirror writes to the `key_status` table,
  in the order they were issued (each one is handed to its own daemon thread).

Timestamps are natural numbers at the store's granularity (the code stores
`datetime.now()` formatted as `"%Y-%m-%d %H:%M:%S"`, i.e. whole seconds, and that
TEXT ordering coincides with chronological order).
-/

namespace LibraryKey

/-- The `FIRST_KEY_ID` constant of `src/main.py`. -/
def FIRST_KEY_ID : Nat := 1

/-- The `LAST_KEY_ID` constant of `src/main.py`. -/
def LAST_KEY_ID : Nat := 100

/-- Values of the `status` column of the `key_status` mirror table:
`'Available'` or `'Borrowed'`. -/
inductive KeyStatus where
  | available
  | borrowed
deriving DecidableEq

/-- Values of the nullable `key_status` column of `student_entries`:
`'Borrowed'` or `'Returned'` (the column itself is an `Option` of this). -/
inductive RecStatus where
  | borrowed
  | returned
deriving DecidableEq

/-- One row of the `student_entries` table. -/
structure EntryRow where
  id : Nat
  student_id : String
  entry_time : Nat
  key_id : Option Nat
  key_status : Option RecStatus
deriving DecidableEq

/-- Result of `_process_key_id`, abstracting the returned f-strings:
`noStudentScanned` is the "No student ID scanned" error, `keyReturned k` the
"Key k returned." message, `alreadyHasKey u held` the "already has key ... borrowed"
error (carrying the fetched `key_id` column value), and `keyBorrowed k u` the
"Key k borrowed by student u." message.  `_process_key_id` falls off the end of
the function (Python `None`) when the key is in neither in-memory set, hence the
result type `Option ScanResult` at the call sites. -/
inductive ScanResult where
  | noStudentScanned
  | keyReturned (key : Nat)
  | alreadyHasKey (student : String) (held : Option Nat)
  | keyBorrowed (key : Nat) (student : String)
deriving DecidableEq

/-- The engine state: in-memory fields plus the durable tables it owns. -/
structure SysState where
  current_student : Option String
  entries : List EntryRow
  next_id : Nat
  available_keys : Finset Nat
  borrowed_keys : Finset Nat
  pending_writes : List (Nat × KeyStatus)
deriving DecidableEq

/-- Python's `if not self.current_student:` — true when the field is `None`
or the empty string. -/
def hasNoSession (s : SysState) : Bool :=
  match s.current_student with
  | none => true
  | some st => st = ""

/-- `SELECT ... ORDER BY entry_time DESC LIMIT 1` over an unindexed table scan:
the first row, in scan (= insertion) order, attaining the maximal `entry_time`
(SQLite's sorter is stable with respect to scan order, so among equal
`entry_time` keys the earliest-scanned row is produced first). -/
def firstMaxByTime (rows : List EntryRow) : Option EntryRow :=
  rows.foldl (fun acc r =>
    match acc with
    | none => some r
    | some b => if b.entry_time < r.entry_time then some r else some b) none

/-- The subquery of the return path:
`SELECT id FROM student_entries WHERE key_id = ? AND key_status = 'Borrowed'
ORDER BY entry_time DESC LIMIT 1`. -/
def returnTarget (entries : List EntryRow) (key_id : Nat) : Option EntryRow :=
  firstMaxByTime (entries.filter fun r =>
    r.key_id = some key_id ∧ r.key_status = some RecStatus.borrowed)

/-- The subquery of the borrow path:
`SELECT id FROM student_entries WHERE student_id = ? AND (key_status IS NULL OR
key_status = 'Returned') ORDER BY entry_time DESC LIMIT 1`. -/
def borrowTarget (entries : List EntryRow) (student : String) : Option EntryRow :=
  firstMaxByTime (entries.filter fun r =>
    r.student_id = student ∧ (r.key_status = none ∨ r.key_status = some RecStatus.returned))

/-- The borrow-path guard query:
`SELECT key_id FROM student_entries WHERE student_id = ? AND key_status = 'Borrowed'`
followed by `fetchone()`: the first matching row's `key_id` column, or `none`
when no row matches. -/
def activeBorrowedFetch (entries : List EntryRow) (student : String) : Option (Option Nat) :=
  ((entries.filter fun r =>
    r.student_id = student ∧ r.key_status = some RecStatus.borrowed).head?).map
    (fun r => r.key_id)

/-- `UPDATE student_entries SET key_id = ?, key_status = ? WHERE id = ?`:
rewrite the key fields of the row(s) with the given id, leaving every other
column and row untouched. -/
def setKeyFields (entries : List EntryRow) (i : Nat) (kid : Option Nat)
    (st : Option RecStatus) : List EntryRow :=
  entries.map fun r =>
    if r.id = i then { r with key_id := kid, key_status := st } else r

/-- `_process_student_id`: open/overwrite the session and append one row with
null key fields. -/
def processStudentId (s : SysState) (student_id : String) (t : Nat) : SysState :=
  { s with
    current_student := some student_id
    entries := s.entries ++ [⟨s.next_id, student_id, t, none, none⟩]
    next_id := s.next_id + 1 }

/-- The borrow tail of `_process_key_id` (lines 139-154): update the student's
most recent null-or-Returned row to `(key_id, 'Borrowed')`, move the key from
`available_keys` to `borrowed_keys`, and schedule the async mirror write. -/
def borrowKey (s : SysState) (student : String) (key_id : Nat) :
    SysState × Option ScanResult :=
  let entries' :=
    match borrowTarget s.entries student with
    | none => s.entries
    | some tgt => setKeyFields s.entries tgt.id (some key_id) (some RecStatus.borrowed)
  ({ s with
      entries := entries'
      available_keys := s.available_keys.erase key_id
      borrowed_keys := insert key_id s.borrowed_keys
      pending_writes := s.pending_writes ++ [(key_id, KeyStatus.borrowed)] },
   some (ScanResult.keyBorrowed key_id student))

/-- `_process_key_id` (lines 103-154 of `src/main.py`). -/
def processKeyId (s : SysState) (key_id : Nat) : SysState × Option ScanResult :=
  if hasNoSession s then
    (s, some ScanResult.noStudentScanned)
  else
    let student := s.current_student.getD ""
    if key_id ∈ s.borrowed_keys then
      let entries' :=
        match returnTarget s.entries key_id with
        | none => s.entries
        | some tgt => setKeyFields s.entries tgt.id (some key_id) (some RecStatus.returned)
      ({ s with
          entries := entries'
          borrowed_keys := s.borrowed_keys.erase key_id
          available_keys := insert key_id s.available_keys
          pending_writes := s.pending_writes ++ [(key_id, KeyStatus.available)] },
       some (ScanResult.keyReturned key_id))
    else if key_id ∈ s.available_keys then
      match activeBorrowedFetch s.entries student with
      | some held =>
          if held ≠ some key_id then
            (s, some (ScanResult.alreadyHasKey student held))
          else
            borrowKey s student key_id
      | none => borrowKey s student key_id
    else
      (s, none)

/-- One row of the list produced by `get_status`:
`(key_id, 'Borrowed'/'Available', student_id or None)`. -/
structure StatusRow where
  key_id : Nat
  status : KeyStatus
  student : Option String
deriving DecidableEq

/-- The `borrowed_dict` of `get_status`, looked up at key `k`: the dictionary
comprehension `{key[1]: key[0] for key in borrowed_keys}` maps each `key_id`
occurring among the `'Borrowed'` rows to the `student_id` of the last such row
in query (insertion) order. -/
def borrowedDictLookup (entries : List EntryRow) (k : Nat) : Option String :=
  (entries.filter fun r => r.key_status = some RecStatus.borrowed).foldl
    (fun acc r => if r.key_id = some k then some r.student_id else acc) none

/-- `get_status` (lines 156-176 of `src/main.py`). -/
def get_status (s : SysState) : List StatusRow :=
  (List.range' FIRST_KEY_ID (LAST_KEY_ID - FIRST_KEY_ID + 1)).map fun k =>
    match borrowedDictLookup s.entries k with
    | some st => ⟨k, KeyStatus.borrowed, some st⟩
    | none => ⟨k, KeyStatus.available, none⟩

/-- The initial state after `__init__` on a fresh database: `_create_tables`
seeds `key_status` with every key in `[FIRST_KEY_ID, LAST_KEY_ID]` as
`'Available'` and `_load_keys_from_db` loads them all into `available_keys`. -/
def initState : SysState :=
  { current_student := none
    entries := []
    next_id := 1
    available_keys := Finset.Icc FIRST_KEY_ID LAST_KEY_ID
    borrowed_keys := ∅
    pending_writes := [] }

/-- A scan operation reaching the engine: a badge scan (with the wall-clock
second at which the row is inserted) or a key scan. -/
inductive Op where
  | badge (student_id : String) (t : Nat)
  | key (key_id : Nat)

/-- Apply one scan operation to the state. -/
def applyOp (s : SysState) (op : Op) : SysState :=
  match op with
  | Op.badge sid t => processStudentId s sid t
  | Op.key k => (processKeyId s k).1

/-- Run a sequence of scan operations. -/
def runOps (s : SysState) (ops : List Op) : SysState :=
  ops.foldl applyOp s

/-- States reachable from the seeded initial state by badge and key scans. -/
inductive Reachable : SysState → Prop where
  | init : Reachable initState
  | step (op : Op) {s : SysState} : Reachable s → Reachable (applyOp s op)

/-- `_update_key_status_in_db`'s UPSERT applied to a mirror-table snapshot. -/
def upsertKeyStatus (db : Nat → Option KeyStatus) (w : Nat × KeyStatus) :
    Nat → Option KeyStatus :=
  fun k => if k = w.1 then some w.2 else db k

/-- Apply a list of mirror writes in the given commit order. -/
def applyWrites (db : Nat → Option KeyStatus) (l : List (Nat × KeyStatus)) :
    Nat → Option KeyStatus :=
  l.foldl upsertKeyStatus db

/-- Possible final contents of the `key_status` mirror table: every issued write
runs in its own fire-and-forget daemon thread (`threading.Thread(...).start()`),
so the commit order may be any permutation of the issue order. -/
def MirrorOutcome (issued : List (Nat × KeyStatus)) (db db' : Nat → Option KeyStatus) :
    Prop :=
  ∃ order : List (Nat × KeyStatus), order.Perm issued ∧ db' = applyWrites db order

/-- The claim's selector for the return path, following the spec's words:
the row with maximal `entry_time`, ties broken by insertion order (the
later-inserted row wins). -/
def lastMaxByTime (rows : List EntryRow) : Option EntryRow :=
  rows.foldl (fun acc r =>
    match acc with
    | none => some r
    | some b => if r.entry_time < b.entry_time then some b else some r) none

/-- "The most recent EntryRecord with that `key_id` and `key_status = Borrowed`",
with maximum `entry_time` and insertion order as the tiebreaker. -/
def mostRecentBorrowedSpec (entries : List EntryRow) (k : Nat) : Option EntryRow :=
  lastMaxByTime (entries.filter fun r =>
    r.key_id = some k ∧ r.key_status = some RecStatus.borrowed)

/-- Number of `'Borrowed'` rows recording key `k`. -/
def borrowedCount (entries : List EntryRow) (k : Nat) : Nat :=
  (entries.filter fun r =>
    r.key_id = some k ∧ r.key_status = some RecStatus.borrowed).length

/-- Number of `'Borrowed'` rows of student `st`. -/
def studentBorrowedCount (entries : List EntryRow) (st : String) : Nat :=
  (entries.filter fun r =>
    r.student_id = st ∧ r.key_status = some RecStatus.borrowed).length

/-! ### Helper lemmas about the embedded queries -/

theorem foldlMax_some (l : List EntryRow) : ∀ b : EntryRow,
    ∃ r, l.foldl (fun acc r =>
      match acc with
      | none => some r
      | some b => if b.entry_time < r.entry_time then some r else some b) (some b) = some r ∧
      (r = b ∨ r ∈ l) := by
  induction l with
  | nil => exact fun b => ⟨b, rfl, Or.inl rfl⟩
  | cons x t ih =>
      intro b
      simp only [List.foldl_cons]
      by_cases h : b.entry_time < x.entry_time
      · simp only [h, if_pos]
        obtain ⟨r, hr, hmem⟩ := ih x
        exact ⟨r, hr, Or.inr (hmem.elim (fun e => e ▸ List.mem_cons_self x t)
          (fun hm => List.mem_cons_of_mem x hm))⟩
      · simp only [h, if_neg, not_false_iff]
        obtain ⟨r, hr, hmem⟩ := ih b
        exact ⟨r, hr, hmem.elim Or.inl (fun hm => Or.inr (List.mem_cons_of_mem x hm))⟩

theorem firstMaxByTime_mem {l : List EntryRow} {r : EntryRow}
    (h : firstMaxByTime l = some r) : r ∈ l := by
  cases l with
  | nil => simp [firstMaxByTime] at h
  | cons x t =>
      obtain ⟨r', hr', hmem⟩ := foldlMax_some t x
      rw [firstMaxByTime, List.foldl_cons] at h
      rw [hr'] at h
      cases h
      exact hmem.elim (fun e => e ▸ List.mem_cons_self x t) (List.mem_cons_of_mem x)

theorem firstMaxByTime_of_ne_nil {l : List EntryRow} (h : l ≠ []) :
    ∃ r, firstMaxByTime l = some r := by
  cases l with
  | nil => exact absurd rfl h
  | cons x t =>
      obtain ⟨r', hr', _⟩ := foldlMax_some t x
      exact ⟨r', by rw [firstMaxByTime, List.foldl_cons]; exact hr'⟩

theorem firstMaxByTime_singleton (r : EntryRow) : firstMaxByTime [r] = some r := rfl

theorem lastMaxByTime_singleton (r : EntryRow) : lastMaxByTime [r] = some r := rfl

/-- The fold step building `borrowed_dict`, looked up at key `k`. -/
def dictStep (k : Nat) (acc : Option String) (r : EntryRow) : Option String :=
  if r.key_id = some k then some r.student_id else acc

theorem borrowedDictLookup_eq_foldl (entries : List EntryRow) (k : Nat) :
    borrowedDictLookup entries k =
      (entries.filter fun r => r.key_status = some RecStatus.borrowed).foldl (dictStep k) none :=
  rfl

theorem dictStep_foldl_no_match {l : List EntryRow} {k : Nat}
    (h : ∀ r ∈ l, r.key_id ≠ some k) : ∀ init, l.foldl (dictStep k) init = init := by
  induction l with
  | nil => intro init; rfl
  | cons x t ih =>
      intro init
      have hx : x.key_id ≠ some k := h x (List.mem_cons_self x t)
      simp only [List.foldl_cons, dictStep, if_neg hx]
      exact ih (fun r hr => h r (List.mem_cons_of_mem x hr)) init

theorem dictStep_foldl_some {l : List EntryRow} {k : Nat} :
    ∀ b : String, ∃ c, l.foldl (dictStep k) (some b) = some c := by
  induction l with
  | nil => exact fun b => ⟨b, rfl⟩
  | cons x t ih =>
      intro b
      simp only [List.foldl_cons, dictStep]
      by_cases hx : x.key_id = some k
      · simp only [hx, if_pos]
        exact ih x.student_id
      · simp only [hx, if_neg, not_false_iff]
        exact ih b

theorem dictStep_foldl_unique {l : List EntryRow} {k : Nat} {r0 : EntryRow}
    (h : (l.filter fun r => r.key_id = some k) = [r0]) :
    ∀ init, l.foldl (dictStep k) init = some r0.student_id := by
  induction l with
  | nil => simp at h
  | cons x t ih =>
      intro init
      by_cases hx : x.key_id = some k
      · rw [List.filter_cons_of_pos (by simpa using hx)] at h
        obtain ⟨hx0, ht⟩ := by simpa using h
        simp only [List.foldl_cons, dictStep, if_pos hx]
        rw [dictStep_foldl_no_match ht]
        rw [hx0]
      · rw [List.filter_cons_of_neg (by simpa using hx)] at h
        simp only [List.foldl_cons, dictStep, if_neg hx]
        exact ih h _

theorem dictStep_foldl_none_iff {l : List EntryRow} {k : Nat} :
    l.foldl (dictStep k) none = none ↔ ∀ r ∈ l, r.key_id ≠ some k := by
  constructor
  · induction l with
    | nil => intro _; simp
    | cons x t ih =>
        intro h
        by_cases hx : x.key_id = some k
        · exfalso
          simp only [List.foldl_cons, dictStep, if_pos hx] at h
          obtain ⟨c, hc⟩ := dictStep_foldl_some (l := t) (k := k) x.student_id
          rw [hc] at h
          exact Option.noConfusion h
        · simp only [List.foldl_cons, dictStep, if_neg hx] at h
          intro r hr
          rcases List.mem_cons.mp hr with rfl | hrt
          · exact hx
          · exact ih h r hrt
  · intro h
    exact dictStep_foldl_no_match h none

theorem filter_key_filter_status (entries : List EntryRow) (k : Nat) :
    ((entries.filter fun r => r.key_status = some RecStatus.borrowed).filter
        fun r => r.key_id = some k) =
      entries.filter fun r =>
        r.key_id = some k ∧ r.key_status = some RecStatus.borrowed := by
  rw [List.filter_filter]
  apply List.filter_congr
  intro a _
  simp [Bool.decide_and]

theorem borrowedDictLookup_eq_none_iff (entries : List EntryRow) (k : Nat) :
    borrowedDictLookup entries k = none ↔
      ∀ r ∈ entries, ¬(r.key_id = some k ∧ r.key_status = some RecStatus.borrowed) := by
  rw [borrowedDictLookup_eq_foldl, dictStep_foldl_none_iff]
  constructor
  · intro h r hr hand
    exact h r (by simp [List.mem_filter, hr, hand.2]) hand.1
  · intro h r hr hk
    have hm := List.mem_filter.mp hr
    exact h r hm.1 ⟨hk, by simpa using hm.2⟩

theorem borrowedDictLookup_of_unique {entries : List EntryRow} {k : Nat} {r0 : EntryRow}
    (h : (entries.filter fun r =>
        r.key_id = some k ∧ r.key_status = some RecStatus.borrowed) = [r0]) :
    borrowedDictLookup entries k = some r0.student_id := by
  rw [borrowedDictLookup_eq_foldl]
  exact dictStep_foldl_unique (by rw [filter_key_filter_status]; exact h) none

/-! ### Decomposing an update by unique row id -/

theorem exists_decomp_of_mem_nodup {entries : List EntryRow} {tgt : EntryRow}
    (hmem : tgt ∈ entries) (hnd : (entries.map EntryRow.id).Nodup) :
    ∃ l1 l2, entries = l1 ++ tgt :: l2 ∧
      (∀ r ∈ l1, r.id ≠ tgt.id) ∧ ∀ r ∈ l2, r.id ≠ tgt.id := by
  obtain ⟨l1, l2, rfl⟩ := List.append_of_mem hmem
  rw [List.map_append, List.map_cons, List.nodup_append] at hnd
  obtain ⟨-, hnd2, hdisj⟩ := hnd
  rw [List.nodup_cons] at hnd2
  refine ⟨l1, l2, rfl, ?_, ?_⟩
  · intro r hr he
    exact hdisj (List.mem_map_of_mem EntryRow.id hr) (by simp [he])
  · intro r hr he
    exact hnd2.1 (he ▸ List.mem_map_of_mem EntryRow.id hr)

theorem map_id_of_ne {l : List EntryRow} {i : Nat} (h : ∀ r ∈ l, r.id ≠ i)
    (kid : Option Nat) (st : Option RecStatus) :
    (l.map fun r =>
      if r.id = i then { r with key_id := kid, key_status := st } else r) = l := by
  induction l with
  | nil => rfl
  | cons x t ih =>
      rw [List.map_cons, if_neg (h x (List.mem_cons_self x t)),
        ih fun r hr => h r (List.mem_cons_of_mem x hr)]

theorem setKeyFields_decomp (l1 l2 : List EntryRow) (tgt : EntryRow)
    (h1 : ∀ r ∈ l1, r.id ≠ tgt.id) (h2 : ∀ r ∈ l2, r.id ≠ tgt.id)
    (kid : Option Nat) (st : Option RecStatus) :
    setKeyFields (l1 ++ tgt :: l2) tgt.id kid st =
      l1 ++ { tgt with key_id := kid, key_status := st } :: l2 := by
  unfold setKeyFields
  rw [List.map_append, List.map_cons, map_id_of_ne h1, map_id_of_ne h2, if_pos rfl]

theorem ids_setKeyFields (entries : List EntryRow) (i : Nat) (kid : Option Nat)
    (st : Option RecStatus) :
    (setKeyFields entries i kid st).map EntryRow.id = entries.map EntryRow.id := by
  unfold setKeyFields
  rw [List.map_map]
  apply List.map_congr_left
  intro r _
  by_cases h : r.id = i <;> simp [h]

theorem length_filter_append_cons (p : EntryRow → Bool) (l1 l2 : List EntryRow)
    (x : EntryRow) :
    ((l1 ++ x :: l2).filter p).length =
      (l1.filter p).length + (if p x then 1 else 0) + (l2.filter p).length := by
  rw [List.filter_append, List.filter_cons, List.length_append]
  by_cases h : p x <;> (simp [h]; try omega)

theorem borrowedCount_append_cons (l1 l2 : List EntryRow) (x : EntryRow) (j : Nat) :
    borrowedCount (l1 ++ x :: l2) j =
      borrowedCount l1 j +
        (if x.key_id = some j ∧ x.key_status = some RecStatus.borrowed then 1 else 0) +
        borrowedCount l2 j := by
  unfold borrowedCount
  rw [length_filter_append_cons]
  by_cases h : x.key_id = some j ∧ x.key_status = some RecStatus.borrowed <;> simp [h]

theorem studentBorrowedCount_append_cons (l1 l2 : List EntryRow) (x : EntryRow)
    (st : String) :
    studentBorrowedCount (l1 ++ x :: l2) st =
      studentBorrowedCount l1 st +
        (if x.student_id = st ∧ x.key_status = some RecStatus.borrowed then 1 else 0) +
        studentBorrowedCount l2 st := by
  unfold studentBorrowedCount
  rw [length_filter_append_cons]
  by_cases h : x.student_id = st ∧ x.key_status = some RecStatus.borrowed <;> simp [h]

/-! ### Branch shapes of `_process_key_id` -/

theorem noSession_shape {s : SysState} (hs : hasNoSession s = true) (k : Nat) :
    processKeyId s k = (s, some ScanResult.noStudentScanned) := by
  simp [processKeyId, hs]

theorem return_shape {s : SysState} {k : Nat} {tgt : EntryRow}
    (hs : hasNoSession s = false) (hk : k ∈ s.borrowed_keys)
    (htgt : returnTarget s.entries k = some tgt) :
    processKeyId s k =
      ({ s with
          entries := setKeyFields s.entries tgt.id (some k) (some RecStatus.returned)
          borrowed_keys := s.borrowed_keys.erase k
          available_keys := insert k s.available_keys
          pending_writes := s.pending_writes ++ [(k, KeyStatus.available)] },
       some (ScanResult.keyReturned k)) := by
  simp [processKeyId, hs, hk, htgt]

theorem return_shape_noTarget {s : SysState} {k : Nat}
    (hs : hasNoSession s = false) (hk : k ∈ s.borrowed_keys)
    (htgt : returnTarget s.entries k = none) :
    processKeyId s k =
      ({ s with
          borrowed_keys := s.borrowed_keys.erase k
          available_keys := insert k s.available_keys
          pending_writes := s.pending_writes ++ [(k, KeyStatus.available)] },
       some (ScanResult.keyReturned k)) := by
  simp [processKeyId, hs, hk, htgt]

theorem already_shape {s : SysState} {k : Nat} {u : String} {held : Option Nat}
    (hs : hasNoSession s = false) (hu : s.current_student = some u)
    (hkb : k ∉ s.borrowed_keys) (hka : k ∈ s.available_keys)
    (hf : activeBorrowedFetch s.entries u = some held) (hne : held ≠ some k) :
    processKeyId s k = (s, some (ScanResult.alreadyHasKey u held)) := by
  simp [processKeyId, hs, hkb, hka, hu, hf, hne]

theorem borrow_shape {s : SysState} {k : Nat} {u : String} {tgt : EntryRow}
    (hs : hasNoSession s = false) (hu : s.current_student = some u)
    (hkb : k ∉ s.borrowed_keys) (hka : k ∈ s.available_keys)
    (hf : activeBorrowedFetch s.entries u = none)
    (htgt : borrowTarget s.entries u = some tgt) :
    processKeyId s k =
      ({ s with
          entries := setKeyFields s.entries tgt.id (some k) (some RecStatus.borrowed)
          available_keys := s.available_keys.erase k
          borrowed_keys := insert k s.borrowed_keys
          pending_writes := s.pending_writes ++ [(k, KeyStatus.borrowed)] },
       some (ScanResult.keyBorrowed k u)) := by
  simp [processKeyId, borrowKey, hs, hkb, hka, hu, hf, htgt]

theorem neither_shape {s : SysState} {k : Nat}
    (hs : hasNoSession s = false)
    (hkb : k ∉ s.borrowed_keys) (hka : k ∉ s.available_keys) :
    processKeyId s k = (s, none) := by
  simp [processKeyId, hs, hkb, hka]

/-! ### Properties of the guard queries -/

theorem fetch_eq_none_iff (entries : List EntryRow) (u : String) :
    activeBorrowedFetch entries u = none ↔ studentBorrowedCount entries u = 0 := by
  unfold activeBorrowedFetch studentBorrowedCount
  rw [Option.map_eq_none', List.head?_eq_none_iff, List.length_eq_zero]

theorem fetch_some_mem {entries : List EntryRow} {u : String} {held : Option Nat}
    (h : activeBorrowedFetch entries u = some held) :
    ∃ r0 ∈ entries, r0.student_id = u ∧ r0.key_status = some RecStatus.borrowed ∧
      r0.key_id = held := by
  unfold activeBorrowedFetch at h
  rw [Option.map_eq_some'] at h
  obtain ⟨r0, hr0, rfl⟩ := h
  have hmem := List.mem_of_mem_head? hr0
  have hp := List.mem_filter.mp hmem
  have hp2 : r0.student_id = u ∧ r0.key_status = some RecStatus.borrowed := by
    simpa using hp.2
  exact ⟨r0, hp.1, hp2.1, hp2.2, rfl⟩

/-! ### The reachable-state invariant -/

structure Inv (s : SysState) : Prop where
  excl : ∀ k ∈ s.available_keys, k ∉ s.borrowed_keys
  cover : s.available_keys ∪ s.borrowed_keys = Finset.Icc FIRST_KEY_ID LAST_KEY_ID
  cntB : ∀ k, borrowedCount s.entries k = if k ∈ s.borrowed_keys then 1 else 0
  cntS : ∀ st, studentBorrowedCount s.entries st ≤ 1
  idsNodup : (s.entries.map EntryRow.id).Nodup
  idLt : ∀ r ∈ s.entries, r.id < s.next_id
  freeRow : ∀ st, s.current_student = some st → st ≠ "" →
    studentBorrowedCount s.entries st = 0 →
    ∃ r ∈ s.entries, r.student_id = st ∧
      (r.key_status = none ∨ r.key_status = some RecStatus.returned)

theorem inv_initState : Inv initState := by
  constructor
  · intro k _
    simp [initState]
  · simp [initState]
  · intro k
    simp [initState, borrowedCount]
  · intro st
    simp [initState, studentBorrowedCount]
  · simp [initState]
  · intro r hr
    simp [initState] at hr
  · intro st hst
    simp [initState] at hst

theorem inv_return_target {s : SysState} {k : Nat} (hinv : Inv s)
    (hk : k ∈ s.borrowed_keys) :
    ∃ tgt, (s.entries.filter fun r =>
        r.key_id = some k ∧ r.key_status = some RecStatus.borrowed) = [tgt] ∧
      returnTarget s.entries k = some tgt ∧ tgt ∈ s.entries ∧
      tgt.key_id = some k ∧ tgt.key_status = some RecStatus.borrowed := by
  have hc := hinv.cntB k
  rw [if_pos hk] at hc
  unfold borrowedCount at hc
  obtain ⟨tgt, htgt⟩ := List.length_eq_one.mp hc
  have hmemf : tgt ∈ s.entries.filter fun r =>
      r.key_id = some k ∧ r.key_status = some RecStatus.borrowed := by
    rw [htgt]; exact List.mem_cons_self _ _
  have hp := List.mem_filter.mp hmemf
  have hp2 : tgt.key_id = some k ∧ tgt.key_status = some RecStatus.borrowed := by
    simpa using hp.2
  refine ⟨tgt, htgt, ?_, hp.1, hp2.1, hp2.2⟩
  unfold returnTarget
  rw [htgt]
  exact firstMaxByTime_singleton tgt

theorem inv_borrow_target {s : SysState} {u : String} (hinv : Inv s)
    (hu : s.current_student = some u) (hne : u ≠ "")
    (h0 : studentBorrowedCount s.entries u = 0) :
    ∃ tgt, borrowTarget s.entries u = some tgt ∧ tgt ∈ s.entries ∧
      tgt.student_id = u ∧
      (tgt.key_status = none ∨ tgt.key_status = some RecStatus.returned) := by
  obtain ⟨r, hr, hrs, hrst⟩ := hinv.freeRow u hu hne h0
  have hne2 : (s.entries.filter fun r =>
      r.student_id = u ∧
        (r.key_status = none ∨ r.key_status = some RecStatus.returned)) ≠ [] := by
    intro hnil
    have hrf : r ∈ s.entries.filter fun r =>
        r.student_id = u ∧
          (r.key_status = none ∨ r.key_status = some RecStatus.returned) :=
      List.mem_filter.mpr ⟨hr, by simp [hrs, hrst]⟩
    rw [hnil] at hrf
    simp at hrf
  obtain ⟨tgt, htgt⟩ := firstMaxByTime_of_ne_nil hne2
  have hmem := firstMaxByTime_mem htgt
  have hp := List.mem_filter.mp hmem
  have hp2 : tgt.student_id = u ∧
      (tgt.key_status = none ∨ tgt.key_status = some RecStatus.returned) := by
    simpa using hp.2
  exact ⟨tgt, htgt, hp.1, hp2.1, hp2.2⟩

/-- The row written by `setKeyFields` at the target id. -/
def withKeyFields (r : EntryRow) (kid : Option Nat) (st : Option RecStatus) : EntryRow :=
  { r with key_id := kid, key_status := st }

theorem withKeyFields_key_id (r : EntryRow) (kid : Option Nat) (st : Option RecStatus) :
    (withKeyFields r kid st).key_id = kid := rfl

theorem withKeyFields_key_status (r : EntryRow) (kid : Option Nat)
    (st : Option RecStatus) : (withKeyFields r kid st).key_status = st := rfl

theorem withKeyFields_student (r : EntryRow) (kid : Option Nat) (st : Option RecStatus) :
    (withKeyFields r kid st).student_id = r.student_id := rfl

theorem withKeyFields_id (r : EntryRow) (kid : Option Nat) (st : Option RecStatus) :
    (withKeyFields r kid st).id = r.id := rfl

theorem cover_swap_to_borrowed {av bo : Finset Nat} {k : Nat} (hk : k ∈ bo) :
    insert k av ∪ bo.erase k = av ∪ bo := by
  ext j
  simp only [Finset.mem_union, Finset.mem_insert, Finset.mem_erase]
  constructor
  · rintro ((rfl | hja) | ⟨-, hjb⟩)
    · exact Or.inr hk
    · exact Or.inl hja
    · exact Or.inr hjb
  · rintro (hja | hjb)
    · exact Or.inl (Or.inr hja)
    · by_cases hjk : j = k
      · exact Or.inl (Or.inl hjk)
      · exact Or.inr ⟨hjk, hjb⟩

theorem cover_swap_to_available {av bo : Finset Nat} {k : Nat} (hk : k ∈ av) :
    av.erase k ∪ insert k bo = av ∪ bo := by
  ext j
  simp only [Finset.mem_union, Finset.mem_insert, Finset.mem_erase]
  constructor
  · rintro (⟨-, hja⟩ | (rfl | hjb))
    · exact Or.inl hja
    · exact Or.inl hk
    · exact Or.inr hjb
  · rintro (hja | hjb)
    · by_cases hjk : j = k
      · exact Or.inr (Or.inl hjk)
      · exact Or.inl ⟨hjk, hja⟩
    · exact Or.inr (Or.inr hjb)

theorem inv_return_mut {s : SysState} {k : Nat} {tgt : EntryRow} (hinv : Inv s)
    (hk : k ∈ s.borrowed_keys)
    (hmem : tgt ∈ s.entries) (hkey : tgt.key_id = some k)
    (hst : tgt.key_status = some RecStatus.borrowed) :
    Inv { s with
      entries := setKeyFields s.entries tgt.id (some k) (some RecStatus.returned)
      borrowed_keys := s.borrowed_keys.erase k
      available_keys := insert k s.available_keys
      pending_writes := s.pending_writes ++ [(k, KeyStatus.available)] } := by
  obtain ⟨l1, l2, hdec, h1, h2⟩ := exists_decomp_of_mem_nodup hmem hinv.idsNodup
  have hset : setKeyFields s.entries tgt.id (some k) (some RecStatus.returned) =
      l1 ++ withKeyFields tgt (some k) (some RecStatus.returned) :: l2 := by
    rw [hdec]
    exact setKeyFields_decomp l1 l2 tgt h1 h2 _ _
  have hnew_not_b : ∀ j, ¬((withKeyFields tgt (some k)
      (some RecStatus.returned)).key_id = some j ∧
      (withKeyFields tgt (some k) (some RecStatus.returned)).key_status =
        some RecStatus.borrowed) := by
    intro j hc
    rw [withKeyFields_key_status] at hc
    exact Option.noConfusion hc.2 (fun h => RecStatus.noConfusion h)
  constructor
  · intro j hj
    rcases Finset.mem_insert.mp hj with rfl | hja
    · exact Finset.not_mem_erase j s.borrowed_keys
    · intro hjb
      exact hinv.excl j hja (Finset.mem_of_mem_erase hjb)
  · show insert k s.available_keys ∪ s.borrowed_keys.erase k = _
    rw [cover_swap_to_borrowed hk]
    exact hinv.cover
  · intro j
    show borrowedCount (setKeyFields s.entries tgt.id (some k) (some RecStatus.returned)) j =
      if j ∈ s.borrowed_keys.erase k then 1 else 0
    rw [hset, borrowedCount_append_cons, if_neg (hnew_not_b j)]
    have hold := hinv.cntB j
    rw [hdec, borrowedCount_append_cons] at hold
    by_cases hjk : j = k
    · subst hjk
      rw [if_pos hk, if_pos ⟨hkey, hst⟩] at hold
      rw [if_neg (Finset.not_mem_erase j s.borrowed_keys)]
      omega
    · have hnt : ¬(tgt.key_id = some j ∧ tgt.key_status = some RecStatus.borrowed) := by
        intro hc
        rw [hkey] at hc
        exact hjk (by simpa using hc.1.symm)
      rw [if_neg hnt] at hold
      have hms : (j ∈ s.borrowed_keys.erase k) ↔ (j ∈ s.borrowed_keys) := by
        simp [Finset.mem_erase, hjk]
      by_cases hjb : j ∈ s.borrowed_keys
      · rw [if_pos (hms.mpr hjb)]
        rw [if_pos hjb] at hold
        omega
      · rw [if_neg (fun hc => hjb (hms.mp hc))]
        rw [if_neg hjb] at hold
        omega
  · intro st
    show studentBorrowedCount
        (setKeyFields s.entries tgt.id (some k) (some RecStatus.returned)) st ≤ 1
    rw [hset, studentBorrowedCount_append_cons]
    have hold := hinv.cntS st
    rw [hdec, studentBorrowedCount_append_cons] at hold
    have hns : ¬((withKeyFields tgt (some k)
        (some RecStatus.returned)).student_id = st ∧
        (withKeyFields tgt (some k) (some RecStatus.returned)).key_status =
          some RecStatus.borrowed) := by
      intro hc
      rw [withKeyFields_key_status] at hc
      exact Option.noConfusion hc.2 (fun h => RecStatus.noConfusion h)
    rw [if_neg hns]
    by_cases hc : tgt.student_id = st ∧ tgt.key_status = some RecStatus.borrowed
    · rw [if_pos hc] at hold
      omega
    · rw [if_neg hc] at hold
      omega
  · show ((setKeyFields s.entries tgt.id (some k)
        (some RecStatus.returned)).map EntryRow.id).Nodup
    rw [ids_setKeyFields]
    exact hinv.idsNodup
  · intro r hr
    show r.id < s.next_id
    have hr' : r ∈ setKeyFields s.entries tgt.id (some k) (some RecStatus.returned) := hr
    rw [hset] at hr'
    rcases List.mem_append.mp hr' with hr1 | hr2
    · exact hinv.idLt r (by rw [hdec]; exact List.mem_append_left _ hr1)
    · rcases List.mem_cons.mp hr2 with rfl | hr2'
      · exact hinv.idLt tgt hmem
      · refine hinv.idLt r ?_
        rw [hdec]
        exact List.mem_append_right _ (List.mem_cons_of_mem _ hr2')
  · intro st hcur hne0 hcnt
    have hcur' : s.current_student = some st := hcur
    have hcnt' : studentBorrowedCount
        (setKeyFields s.entries tgt.id (some k) (some RecStatus.returned)) st = 0 := hcnt
    by_cases hstu : tgt.student_id = st
    · refine ⟨withKeyFields tgt (some k) (some RecStatus.returned), ?_, hstu, Or.inr rfl⟩
      show _ ∈ setKeyFields s.entries tgt.id (some k) (some RecStatus.returned)
      rw [hset]
      exact List.mem_append_right _ (List.mem_cons_self _ _)
    · have hcnt_old : studentBorrowedCount s.entries st = 0 := by
        rw [hset, studentBorrowedCount_append_cons] at hcnt'
        rw [hdec, studentBorrowedCount_append_cons]
        rw [if_neg (fun hc => hstu hc.1)]
        rw [if_neg (fun hc => hstu hc.1)] at hcnt'
        omega
      obtain ⟨r, hr, hrs, hrstat⟩ := hinv.freeRow st hcur' hne0 hcnt_old
      rw [hdec] at hr
      have hgoal : ∀ r', r' ∈ setKeyFields s.entries tgt.id (some k)
          (some RecStatus.returned) → r'.student_id = st →
          (r'.key_status = none ∨ r'.key_status = some RecStatus.returned) →
          ∃ r0 ∈ setKeyFields s.entries tgt.id (some k) (some RecStatus.returned),
            r0.student_id = st ∧
            (r0.key_status = none ∨ r0.key_status = some RecStatus.returned) :=
        fun r' h a b => ⟨r', h, a, b⟩
      rcases List.mem_append.mp hr with hr1 | hr2
      · exact hgoal r (by rw [hset]; exact List.mem_append_left _ hr1) hrs hrstat
      · rcases List.mem_cons.mp hr2 with rfl | hr2'
        · exact absurd hrs hstu
        · refine hgoal r ?_ hrs hrstat
          rw [hset]
          exact List.mem_append_right _ (List.mem_cons_of_mem _ hr2')

theorem inv_borrow_mut {s : SysState} {k : Nat} {u : String} {tgt : EntryRow}
    (hinv : Inv s) (hu : s.current_student = some u)
    (hkb : k ∉ s.borrowed_keys) (hka : k ∈ s.available_keys)
    (h0 : studentBorrowedCount s.entries u = 0)
    (hmem : tgt ∈ s.entries) (hstu : tgt.student_id = u)
    (hstat : tgt.key_status = none ∨ tgt.key_status = some RecStatus.returned) :
    Inv { s with
      entries := setKeyFields s.entries tgt.id (some k) (some RecStatus.borrowed)
      available_keys := s.available_keys.erase k
      borrowed_keys := insert k s.borrowed_keys
      pending_writes := s.pending_writes ++ [(k, KeyStatus.borrowed)] } := by
  obtain ⟨l1, l2, hdec, h1, h2⟩ := exists_decomp_of_mem_nodup hmem hinv.idsNodup
  have hset : setKeyFields s.entries tgt.id (some k) (some RecStatus.borrowed) =
      l1 ++ withKeyFields tgt (some k) (some RecStatus.borrowed) :: l2 := by
    rw [hdec]
    exact setKeyFields_decomp l1 l2 tgt h1 h2 _ _
  have htgt_not_b : ¬tgt.key_status = some RecStatus.borrowed := by
    rcases hstat with h | h <;> simp [h]
  constructor
  · intro j hj
    obtain ⟨hjk, hja⟩ := Finset.mem_erase.mp hj
    intro hjb
    rcases Finset.mem_insert.mp hjb with rfl | hjb'
    · exact hjk rfl
    · exact hinv.excl j hja hjb'
  · show s.available_keys.erase k ∪ insert k s.borrowed_keys = _
    rw [cover_swap_to_available hka]
    exact hinv.cover
  · intro j
    show borrowedCount (setKeyFields s.entries tgt.id (some k) (some RecStatus.borrowed)) j =
      if j ∈ insert k s.borrowed_keys then 1 else 0
    rw [hset, borrowedCount_append_cons]
    have hold := hinv.cntB j
    rw [hdec, borrowedCount_append_cons, if_neg
      (fun hc => htgt_not_b hc.2)] at hold
    by_cases hjk : j = k
    · subst hjk
      rw [if_neg hkb] at hold
      rw [if_pos ⟨rfl, rfl⟩, if_pos (Finset.mem_insert_self j s.borrowed_keys)]
      omega
    · have hnewc : ¬((withKeyFields tgt (some k)
          (some RecStatus.borrowed)).key_id = some j ∧
          (withKeyFields tgt (some k) (some RecStatus.borrowed)).key_status =
            some RecStatus.borrowed) := by
        intro hc
        rw [withKeyFields_key_id] at hc
        exact hjk (Option.some.inj hc.1).symm
      rw [if_neg hnewc]
      by_cases hjb : j ∈ s.borrowed_keys
      · rw [if_pos (Finset.mem_insert_of_mem hjb)]
        rw [if_pos hjb] at hold
        omega
      · rw [if_neg (fun hc => by
          rcases Finset.mem_insert.mp hc with rfl | hc'
          · exact hjk rfl
          · exact hjb hc')]
        rw [if_neg hjb] at hold
        omega
  · intro st
    show studentBorrowedCount
        (setKeyFields s.entries tgt.id (some k) (some RecStatus.borrowed)) st ≤ 1
    rw [hset, studentBorrowedCount_append_cons]
    have hold := hinv.cntS st
    rw [hdec, studentBorrowedCount_append_cons, if_neg
      (fun hc => htgt_not_b hc.2)] at hold
    by_cases hstq : tgt.student_id = st
    · have hust : u = st := by rw [← hstu, hstq]
      subst hust
      have h0' := h0
      rw [hdec, studentBorrowedCount_append_cons, if_neg
        (fun hc => htgt_not_b hc.2)] at h0'
      rw [if_pos ⟨by rw [withKeyFields_student]; exact hstq, rfl⟩]
      omega
    · rw [if_neg (fun hc => hstq (by rw [withKeyFields_student] at hc; exact hc.1))]
      omega
  · show ((setKeyFields s.entries tgt.id (some k)
        (some RecStatus.borrowed)).map EntryRow.id).Nodup
    rw [ids_setKeyFields]
    exact hinv.idsNodup
  · intro r hr
    show r.id < s.next_id
    have hr' : r ∈ setKeyFields s.entries tgt.id (some k) (some RecStatus.borrowed) := hr
    rw [hset] at hr'
    rcases List.mem_append.mp hr' with hr1 | hr2
    · exact hinv.idLt r (by rw [hdec]; exact List.mem_append_left _ hr1)
    · rcases List.mem_cons.mp hr2 with rfl | hr2'
      · exact hinv.idLt tgt hmem
      · refine hinv.idLt r ?_
        rw [hdec]
        exact List.mem_append_right _ (List.mem_cons_of_mem _ hr2')
  · intro st hcur hne0 hcnt
    exfalso
    have hcur' : s.current_student = some st := hcur
    have hust : u = st := by
      rw [hu] at hcur'
      exact Option.some.inj hcur'
    subst hust
    have hcnt' : studentBorrowedCount
        (setKeyFields s.entries tgt.id (some k) (some RecStatus.borrowed)) u = 0 := hcnt
    rw [hset, studentBorrowedCount_append_cons, if_pos
      ⟨by rw [withKeyFields_student]; exact hstu, rfl⟩] at hcnt'
    omega

theorem borrowedCount_append_null (l : List EntryRow) (row : EntryRow)
    (hrow : row.key_status = none) (j : Nat) :
    borrowedCount (l ++ [row]) j = borrowedCount l j := by
  unfold borrowedCount
  rw [List.filter_append]
  have hnil : (([row] : List EntryRow).filter fun r =>
      r.key_id = some j ∧ r.key_status = some RecStatus.borrowed) = [] := by
    simp [hrow]
  rw [hnil, List.append_nil]

theorem studentBorrowedCount_append_null (l : List EntryRow) (row : EntryRow)
    (hrow : row.key_status = none) (st : String) :
    studentBorrowedCount (l ++ [row]) st = studentBorrowedCount l st := by
  unfold studentBorrowedCount
  rw [List.filter_append]
  have hnil : (([row] : List EntryRow).filter fun r =>
      r.student_id = st ∧ r.key_status = some RecStatus.borrowed) = [] := by
    simp [hrow]
  rw [hnil, List.append_nil]

theorem inv_processStudentId {s : SysState} (hinv : Inv s) (sid : String) (t : Nat) :
    Inv (processStudentId s sid t) := by
  constructor
  · exact hinv.excl
  · exact hinv.cover
  · intro j
    show borrowedCount (s.entries ++ [⟨s.next_id, sid, t, none, none⟩]) j =
      if j ∈ s.borrowed_keys then 1 else 0
    rw [borrowedCount_append_null s.entries _ rfl]
    exact hinv.cntB j
  · intro st
    show studentBorrowedCount (s.entries ++ [⟨s.next_id, sid, t, none, none⟩]) st ≤ 1
    rw [studentBorrowedCount_append_null s.entries _ rfl]
    exact hinv.cntS st
  · show ((s.entries ++ [(⟨s.next_id, sid, t, none, none⟩ : EntryRow)]).map
      EntryRow.id).Nodup
    rw [List.map_append]
    refine List.Nodup.append hinv.idsNodup (by simp) ?_
    intro a ha hb
    simp only [List.map_cons, List.map_nil, List.mem_singleton] at hb
    subst hb
    obtain ⟨r, hr, hid⟩ := List.mem_map.mp ha
    have := hinv.idLt r hr
    omega
  · intro r hr
    show r.id < s.next_id + 1
    have hr' : r ∈ s.entries ++ [⟨s.next_id, sid, t, none, none⟩] := hr
    rcases List.mem_append.mp hr' with h1 | h2
    · have := hinv.idLt r h1
      omega
    · simp only [List.mem_singleton] at h2
      subst h2
      show s.next_id < s.next_id + 1
      omega
  · intro st hcur _ _
    have hcur' : some sid = some st := hcur
    have hst : sid = st := Option.some.inj hcur'
    subst hst
    exact ⟨⟨s.next_id, sid, t, none, none⟩,
      List.mem_append_right _ (List.mem_singleton.mpr rfl), rfl, Or.inl rfl⟩

theorem inv_applyOp {s : SysState} (hinv : Inv s) (op : Op) : Inv (applyOp s op) := by
  cases op with
  | badge sid t => exact inv_processStudentId hinv sid t
  | key k =>
      show Inv (processKeyId s k).1
      by_cases hs : hasNoSession s = true
      · rw [noSession_shape hs]
        exact hinv
      · have hs' : hasNoSession s = false := by simpa using hs
        obtain ⟨u, hu, hne⟩ : ∃ u, s.current_student = some u ∧ u ≠ "" := by
          unfold hasNoSession at hs'
          cases hcur : s.current_student with
          | none => rw [hcur] at hs'; simp at hs'
          | some st =>
              rw [hcur] at hs'
              exact ⟨st, rfl, by simpa using hs'⟩
        by_cases hk : k ∈ s.borrowed_keys
        · obtain ⟨tgt, hfil, htgt, hmem, hkey, hstt⟩ := inv_return_target hinv hk
          rw [return_shape hs' hk htgt]
          exact inv_return_mut hinv hk hmem hkey hstt
        · by_cases hka : k ∈ s.available_keys
          · cases hf : activeBorrowedFetch s.entries u with
            | some held =>
                by_cases hheld : held = some k
                · exfalso
                  obtain ⟨r0, hr0, hr0st, hr0b, hr0key⟩ := fetch_some_mem hf
                  have hmemf : r0 ∈ s.entries.filter fun r =>
                      r.key_id = some k ∧ r.key_status = some RecStatus.borrowed :=
                    List.mem_filter.mpr ⟨hr0, by simp [hr0key, hheld, hr0b]⟩
                  have hge : 0 < borrowedCount s.entries k :=
                    List.length_pos_of_mem hmemf
                  rw [hinv.cntB k, if_neg hk] at hge
                  omega
                · rw [already_shape hs' hu hk hka hf hheld]
                  exact hinv
            | none =>
                have h0 := (fetch_eq_none_iff s.entries u).mp hf
                obtain ⟨tgt, htgt, hmem, hstu, hstat⟩ :=
                  inv_borrow_target hinv hu hne h0
                rw [borrow_shape hs' hu hk hka hf htgt]
                exact inv_borrow_mut hinv hu hk hka h0 hmem hstu hstat
          · rw [neither_shape hs' hk hka]
            exact hinv

theorem inv_of_reachable {s : SysState} (h : Reachable s) : Inv s := by
  induction h with
  | init => exact inv_initState
  | step op h ih => exact inv_applyOp ih op

/-! ### Further helper lemmas for the claim theorems -/

theorem session_of_not_noSession {s : SysState} (hs' : hasNoSession s = false) :
    ∃ u, s.current_student = some u ∧ u ≠ "" := by
  unfold hasNoSession at hs'
  cases hcur : s.current_student with
  | none => rw [hcur] at hs'; simp at hs'
  | some st =>
      rw [hcur] at hs'
      exact ⟨st, rfl, by simpa using hs'⟩

theorem noSession_false_of_session {s : SysState} {u : String}
    (hu : s.current_student = some u) (hne : u ≠ "") : hasNoSession s = false := by
  unfold hasNoSession
  rw [hu]
  simp [hne]

theorem returnTarget_props {entries : List EntryRow} {k : Nat} {tgt : EntryRow}
    (h : returnTarget entries k = some tgt) :
    tgt ∈ entries ∧ tgt.key_id = some k ∧
      tgt.key_status = some RecStatus.borrowed := by
  unfold returnTarget at h
  have hmem := firstMaxByTime_mem h
  have hp := List.mem_filter.mp hmem
  have hp2 : tgt.key_id = some k ∧ tgt.key_status = some RecStatus.borrowed := by
    simpa using hp.2
  exact ⟨hp.1, hp2.1, hp2.2⟩

theorem borrowTarget_props {entries : List EntryRow} {u : String} {tgt : EntryRow}
    (h : borrowTarget entries u = some tgt) :
    tgt ∈ entries ∧ tgt.student_id = u ∧
      (tgt.key_status = none ∨ tgt.key_status = some RecStatus.returned) := by
  unfold borrowTarget at h
  have hmem := firstMaxByTime_mem h
  have hp := List.mem_filter.mp hmem
  have hp2 : tgt.student_id = u ∧
      (tgt.key_status = none ∨ tgt.key_status = some RecStatus.returned) := by
    simpa using hp.2
  exact ⟨hp.1, hp2.1, hp2.2⟩

theorem setKeyFields_length (entries : List EntryRow) (i : Nat) (kid : Option Nat)
    (st : Option RecStatus) : (setKeyFields entries i kid st).length = entries.length :=
  List.length_map _ _

theorem setKeyFields_proj (entries : List EntryRow) (i : Nat) (kid : Option Nat)
    (st : Option RecStatus) :
    (setKeyFields entries i kid st).map (fun r => (r.id, r.student_id, r.entry_time)) =
      entries.map (fun r => (r.id, r.student_id, r.entry_time)) := by
  unfold setKeyFields
  rw [List.map_map]
  apply List.map_congr_left
  intro r _
  by_cases h : r.id = i <;> simp [h]

theorem borrowKey_available (s : SysState) (u : String) (k : Nat) :
    (borrowKey s u k).1.available_keys = s.available_keys.erase k := by
  cases htgt : borrowTarget s.entries u <;> simp [borrowKey, htgt]

theorem borrowKey_borrowed (s : SysState) (u : String) (k : Nat) :
    (borrowKey s u k).1.borrowed_keys = insert k s.borrowed_keys := by
  cases htgt : borrowTarget s.entries u <;> simp [borrowKey, htgt]

theorem borrowKey_current (s : SysState) (u : String) (k : Nat) :
    (borrowKey s u k).1.current_student = s.current_student := by
  cases htgt : borrowTarget s.entries u <;> simp [borrowKey, htgt]

theorem borrowKey_len (s : SysState) (u : String) (k : Nat) :
    (borrowKey s u k).1.entries.length = s.entries.length := by
  cases htgt : borrowTarget s.entries u <;>
    simp [borrowKey, htgt, setKeyFields_length]

theorem borrowKey_proj (s : SysState) (u : String) (k : Nat) :
    (borrowKey s u k).1.entries.map (fun r => (r.id, r.student_id, r.entry_time)) =
      s.entries.map (fun r => (r.id, r.student_id, r.entry_time)) := by
  cases htgt : borrowTarget s.entries u <;>
    simp [borrowKey, htgt, setKeyFields_proj]

theorem borrowKey_msg (s : SysState) (u : String) (k : Nat) :
    (borrowKey s u k).2 = some (ScanResult.keyBorrowed k u) := by
  cases htgt : borrowTarget s.entries u <;> simp [borrowKey, htgt]

theorem borrowKey_entries (s : SysState) (u : String) (k : Nat) :
    (borrowKey s u k).1.entries = s.entries ∨
    ∃ tgt, borrowTarget s.entries u = some tgt ∧
      (borrowKey s u k).1.entries =
        setKeyFields s.entries tgt.id (some k) (some RecStatus.borrowed) := by
  cases htgt : borrowTarget s.entries u with
  | none =>
      left
      simp [borrowKey, htgt]
  | some tgt =>
      right
      exact ⟨tgt, rfl, by simp [borrowKey, htgt]⟩

theorem borrow_shape_heldSame {s : SysState} {k : Nat} {u : String} {held : Option Nat}
    (hs' : hasNoSession s = false) (hu : s.current_student = some u)
    (hkb : k ∉ s.borrowed_keys) (hka : k ∈ s.available_keys)
    (hf : activeBorrowedFetch s.entries u = some held) (hheld : held = some k) :
    processKeyId s k = borrowKey s u k := by
  simp [processKeyId, hs', hkb, hka, hu, hf, hheld]

theorem borrow_shape_fetchNone {s : SysState} {k : Nat} {u : String}
    (hs' : hasNoSession s = false) (hu : s.current_student = some u)
    (hkb : k ∉ s.borrowed_keys) (hka : k ∈ s.available_keys)
    (hf : activeBorrowedFetch s.entries u = none) :
    processKeyId s k = borrowKey s u k := by
  simp [processKeyId, hs', hkb, hka, hu, hf]

theorem borrow_success_shape {s : SysState} {k : Nat} {u : String}
    (hsucc : (processKeyId s k).2 = some (ScanResult.keyBorrowed k u)) :
    processKeyId s k = borrowKey s u k ∧ k ∉ s.borrowed_keys ∧
      k ∈ s.available_keys ∧ hasNoSession s = false := by
  by_cases hs : hasNoSession s = true
  · rw [noSession_shape hs] at hsucc
    simp at hsucc
  · have hs' : hasNoSession s = false := by simpa using hs
    obtain ⟨u', hu', hne'⟩ := session_of_not_noSession hs'
    by_cases hkb : k ∈ s.borrowed_keys
    · exfalso
      cases htgt : returnTarget s.entries k with
      | none =>
          rw [return_shape_noTarget hs' hkb htgt] at hsucc
          simp at hsucc
      | some tgt =>
          rw [return_shape hs' hkb htgt] at hsucc
          simp at hsucc
    · by_cases hka : k ∈ s.available_keys
      · have hshape : processKeyId s k = borrowKey s u' k := by
          cases hf : activeBorrowedFetch s.entries u' with
          | some held =>
              by_cases hheld : held = some k
              · exact borrow_shape_heldSame hs' hu' hkb hka hf hheld
              · exfalso
                rw [already_shape hs' hu' hkb hka hf hheld] at hsucc
                simp at hsucc
          | none => exact borrow_shape_fetchNone hs' hu' hkb hka hf
        have huu : u' = u := by
          rw [hshape, borrowKey_msg] at hsucc
          exact (ScanResult.keyBorrowed.injEq _ _ _ _).mp
            (Option.some.inj hsucc) |>.2
        subst huu
        exact ⟨hshape, hkb, hka, hs'⟩
      · rw [neither_shape hs' hkb hka] at hsucc
        simp at hsucc

theorem return_cache_facts {s1 : SysState} {K : Nat} (hs1 : hasNoSession s1 = false)
    (hK1 : K ∈ s1.borrowed_keys) :
    (processKeyId s1 K).1.available_keys = insert K s1.available_keys ∧
    (processKeyId s1 K).1.borrowed_keys = s1.borrowed_keys.erase K ∧
    (processKeyId s1 K).1.entries.length = s1.entries.length ∧
    (processKeyId s1 K).1.entries.map (fun r => (r.id, r.student_id, r.entry_time)) =
      s1.entries.map (fun r => (r.id, r.student_id, r.entry_time)) := by
  cases htgt : returnTarget s1.entries K with
  | some tgt =>
      rw [return_shape hs1 hK1 htgt]
      exact ⟨rfl, rfl, setKeyFields_length _ _ _ _, setKeyFields_proj _ _ _ _⟩
  | none =>
      rw [return_shape_noTarget hs1 hK1 htgt]
      exact ⟨rfl, rfl, rfl, rfl⟩

theorem hasNoSession_borrowKey (s : SysState) (u : String) (k : Nat) :
    hasNoSession (borrowKey s u k).1 = hasNoSession s := by
  unfold hasNoSession
  rw [borrowKey_current]

/-! ### The claims -/

/-- C1: for every key ID in the configured range `[FIRST_KEY_ID, LAST_KEY_ID]`, in
every state reachable by any sequence of badge-scan and key-scan operations from the
seeded initial state, the key is a member of exactly one of the in-memory sets
`available_keys` and `borrowed_keys` (never both, never neither). -/
theorem claim_C1_cache_partition {s : SysState} (h : Reachable s) (k : Nat)
    (h1 : FIRST_KEY_ID ≤ k) (h2 : k ≤ LAST_KEY_ID) :
    (k ∈ s.available_keys ∧ k ∉ s.borrowed_keys) ∨
      (k ∈ s.borrowed_keys ∧ k ∉ s.available_keys) := by
  have hinv := inv_of_reachable h
  have hcov : k ∈ s.available_keys ∪ s.borrowed_keys := by
    rw [hinv.cover]
    exact Finset.mem_Icc.mpr ⟨h1, h2⟩
  rcases Finset.mem_union.mp hcov with ha | hb
  · exact Or.inl ⟨ha, hinv.excl k ha⟩
  · exact Or.inr ⟨hb, fun ha => hinv.excl k ha hb⟩

theorem claim_C1_witness :
    (1 ∈ initState.available_keys ∧ 1 ∉ initState.borrowed_keys) ∨
      (1 ∈ initState.borrowed_keys ∧ 1 ∉ initState.available_keys) :=
  claim_C1_cache_partition Reachable.init 1 (by decide) (by decide)

/-- C5: for every state with no active session (no badge scan since engine start,
so `current_student` is `None`), a key scan for any key ID fails with the
no-session error and mutates nothing: the state is returned unchanged. -/
theorem claim_C5_no_session {s : SysState} (h : s.current_student = none) (k : Nat) :
    processKeyId s k = (s, some ScanResult.noStudentScanned) :=
  noSession_shape (by unfold hasNoSession; rw [h]) k

theorem claim_C5_witness :
    processKeyId initState 3 = (initState, some ScanResult.noStudentScanned) :=
  claim_C5_no_session rfl 3

/-- C9: with an active session, a key scan whose key ID is in neither
`available_keys` nor `borrowed_keys` returns `None` — no success message and no
error — and mutates nothing: `_process_key_id` has no branch for this case and
falls off the end of the function. -/
theorem claim_C9_neither_set {s : SysState} {u : String}
    (hu : s.current_student = some u) (hne : u ≠ "") (k : Nat)
    (hkb : k ∉ s.borrowed_keys) (hka : k ∉ s.available_keys) :
    processKeyId s k = (s, none) :=
  neither_shape (noSession_false_of_session hu hne) hkb hka

/-- A state whose loaded `key_status` table had no row for key 5: the key is in
neither in-memory set although a session is active. -/
def stateMissingKey : SysState :=
  { current_student := some "20127999"
    entries := [⟨1, "20127999", 0, none, none⟩]
    next_id := 2
    available_keys := ∅
    borrowed_keys := ∅
    pending_writes := [] }

theorem claim_C9_witness : processKeyId stateMissingKey 5 = (stateMissingKey, none) :=
  claim_C9_neither_set rfl (by decide) 5 (by decide) (by decide)

/-- C10: with an active session, scanning a key that is in `borrowed_keys` while no
EntryRecord with that key and `key_status = 'Borrowed'` exists still moves the key
to `available_keys`, schedules the mirror write and returns the success message:
the return path's UPDATE silently matches zero rows (the entries are unchanged in
the record below) and the operation does not fail. -/
theorem claim_C10_return_without_row {s : SysState} {u : String} {k : Nat}
    (hu : s.current_student = some u) (hne : u ≠ "") (hk : k ∈ s.borrowed_keys)
    (hnorow : ∀ r ∈ s.entries,
      ¬(r.key_id = some k ∧ r.key_status = some RecStatus.borrowed)) :
    processKeyId s k =
      ({ s with
          borrowed_keys := s.borrowed_keys.erase k
          available_keys := insert k s.available_keys
          pending_writes := s.pending_writes ++ [(k, KeyStatus.available)] },
       some (ScanResult.keyReturned k)) := by
  have hs' : hasNoSession s = false := noSession_false_of_session hu hne
  have htgt : returnTarget s.entries k = none := by
    unfold returnTarget
    have hnil : (s.entries.filter fun r =>
        r.key_id = some k ∧ r.key_status = some RecStatus.borrowed) = [] := by
      rw [List.filter_eq_nil_iff]
      intro r hr
      simpa using hnorow r hr
    rw [hnil]
    rfl
  exact return_shape_noTarget hs' hk htgt

/-- A state in which key 5 is marked borrowed in the cache but no Borrowed entry
row exists (as after loading a `key_status` table that says Borrowed while the
entries table has no matching row). -/
def stateOrphanBorrowed : SysState :=
  { current_student := some "20127999"
    entries := [⟨1, "20127999", 0, none, none⟩]
    next_id := 2
    available_keys := ∅
    borrowed_keys := {5}
    pending_writes := [] }

theorem claim_C10_witness :
    processKeyId stateOrphanBorrowed 5 =
      ({ stateOrphanBorrowed with
          borrowed_keys := stateOrphanBorrowed.borrowed_keys.erase 5
          available_keys := insert 5 stateOrphanBorrowed.available_keys
          pending_writes :=
            stateOrphanBorrowed.pending_writes ++ [(5, KeyStatus.available)] },
       some (ScanResult.keyReturned 5)) :=
  claim_C10_return_without_row rfl (by decide) (by decide)
    (fun r hr => by
      simp only [stateOrphanBorrowed, List.mem_singleton] at hr
      subst hr
      simp)

/-- C4: if the current session's student has a Borrowed EntryRecord for key A, a key
scan attempting to borrow a different available key B fails with the
already-holding error identifying A, and returns the state completely unchanged
(no mutation of the cache sets or the entries table). -/
theorem claim_C4_already_holding {s : SysState} {u : String} {A B : Nat}
    {r : EntryRow} (h : Reachable s) (hu : s.current_student = some u)
    (hne : u ≠ "") (hr : r ∈ s.entries) (hrs : r.student_id = u)
    (hrb : r.key_status = some RecStatus.borrowed) (hrk : r.key_id = some A)
    (hB : B ∈ s.available_keys) (hAB : B ≠ A) :
    processKeyId s B = (s, some (ScanResult.alreadyHasKey u (some A))) := by
  have hinv := inv_of_reachable h
  have hs' := noSession_false_of_session hu hne
  have hBnb : B ∉ s.borrowed_keys := hinv.excl B hB
  have hmemf : r ∈ s.entries.filter fun r' =>
      r'.student_id = u ∧ r'.key_status = some RecStatus.borrowed :=
    List.mem_filter.mpr ⟨hr, by simp [hrs, hrb]⟩
  have hlen : (s.entries.filter fun r' =>
      r'.student_id = u ∧ r'.key_status = some RecStatus.borrowed).length = 1 := by
    have hle := hinv.cntS u
    unfold studentBorrowedCount at hle
    have hpos := List.length_pos_of_mem hmemf
    omega
  obtain ⟨r0, hr0⟩ := List.length_eq_one.mp hlen
  have hrr0 : r = r0 := by
    have hx := hmemf
    rw [hr0] at hx
    simpa using hx
  subst hrr0
  have hf : activeBorrowedFetch s.entries u = some (some A) := by
    unfold activeBorrowedFetch
    rw [hr0]
    simp [hrk]
  exact already_shape hs' hu hBnb hB hf (fun hc => hAB (Option.some.inj hc).symm)

/-- The state after badge `"12345678"` and borrowing key 5 from the seeded initial
state. -/
def stateAfterBorrow : SysState :=
  runOps initState [Op.badge "12345678" 0, Op.key 5]

theorem claim_C4_witness :
    processKeyId stateAfterBorrow 7 =
      (stateAfterBorrow, some (ScanResult.alreadyHasKey "12345678" (some 5))) :=
  claim_C4_already_holding
    (Reachable.step (Op.key 5) (Reachable.step (Op.badge "12345678" 0) Reachable.init))
    (by decide) (by decide)
    (show (⟨1, "12345678", 0, some 5, some RecStatus.borrowed⟩ : EntryRow) ∈
      stateAfterBorrow.entries by decide)
    (by decide) (by decide) (by decide) (by decide) (by decide)

/-- C3: on a key scan for a key currently borrowed, with an active session, the
engine selects the most recent EntryRecord with that `key_id` and
`key_status = 'Borrowed'` — maximum `entry_time`, insertion order as the
deterministic tiebreaker — and mutates exactly that record's key fields to
`Returned`: the code's query target (`returnTarget`) coincides with the spec's
selector (`mostRecentBorrowedSpec`) in every reachable state. -/
theorem claim_C3_return_selects_most_recent {s : SysState} {u : String} {K : Nat}
    (h : Reachable s) (hu : s.current_student = some u) (hne : u ≠ "")
    (hK : K ∈ s.borrowed_keys) :
    ∃ tgt, mostRecentBorrowedSpec s.entries K = some tgt ∧
      returnTarget s.entries K = some tgt ∧
      tgt ∈ s.entries ∧ tgt.key_id = some K ∧
      tgt.key_status = some RecStatus.borrowed ∧
      (processKeyId s K).1.entries =
        setKeyFields s.entries tgt.id (some K) (some RecStatus.returned) ∧
      (processKeyId s K).2 = some (ScanResult.keyReturned K) := by
  have hinv := inv_of_reachable h
  have hs' := noSession_false_of_session hu hne
  obtain ⟨tgt, hfil, htgt, hmem, hkey, hstt⟩ := inv_return_target hinv hK
  have hspec : mostRecentBorrowedSpec s.entries K = some tgt := by
    unfold mostRecentBorrowedSpec
    rw [hfil]
    exact lastMaxByTime_singleton tgt
  have hshape := return_shape hs' hK htgt
  refine ⟨tgt, hspec, htgt, hmem, hkey, hstt, ?_, ?_⟩
  · rw [hshape]
  · rw [hshape]

theorem claim_C3_witness :
    ∃ tgt, mostRecentBorrowedSpec stateAfterBorrow.entries 5 = some tgt ∧
      returnTarget stateAfterBorrow.entries 5 = some tgt ∧
      tgt ∈ stateAfterBorrow.entries ∧ tgt.key_id = some 5 ∧
      tgt.key_status = some RecStatus.borrowed ∧
      (processKeyId stateAfterBorrow 5).1.entries =
        setKeyFields stateAfterBorrow.entries tgt.id (some 5)
          (some RecStatus.returned) ∧
      (processKeyId stateAfterBorrow 5).2 = some (ScanResult.keyReturned 5) :=
  claim_C3_return_selects_most_recent (u := "12345678")
    (Reachable.step (Op.key 5) (Reachable.step (Op.badge "12345678" 0) Reachable.init))
    (by decide) (by decide) (by decide)

/-- C6: from any reachable state in which key K is available and the borrow
succeeds, borrowing K and immediately returning K restores `available_keys` and
`borrowed_keys` to their exact pre-borrow values, while the audit log neither
shrinks nor changes anything besides key fields (ids, student ids and entry
times are preserved). -/
theorem claim_C6_borrow_return_round_trip {s : SysState} {K : Nat} {u : String}
    (_hreach : Reachable s) (hK : K ∈ s.available_keys)
    (hsucc : (processKeyId s K).2 = some (ScanResult.keyBorrowed K u)) :
    (processKeyId (processKeyId s K).1 K).1.available_keys = s.available_keys ∧
    (processKeyId (processKeyId s K).1 K).1.borrowed_keys = s.borrowed_keys ∧
    (processKeyId (processKeyId s K).1 K).1.entries.length = s.entries.length ∧
    (processKeyId (processKeyId s K).1 K).1.entries.map
        (fun r => (r.id, r.student_id, r.entry_time)) =
      s.entries.map (fun r => (r.id, r.student_id, r.entry_time)) := by
  obtain ⟨hshape, hKb, -, hs'⟩ := borrow_success_shape hsucc
  have hs2 : hasNoSession (borrowKey s u K).1 = false := by
    rw [hasNoSession_borrowKey]
    exact hs'
  have hK2 : K ∈ (borrowKey s u K).1.borrowed_keys := by
    rw [borrowKey_borrowed]
    exact Finset.mem_insert_self K _
  obtain ⟨hav2, hbo2, hlen2, hproj2⟩ := return_cache_facts hs2 hK2
  rw [hshape]
  refine ⟨?_, ?_, ?_, ?_⟩
  · rw [hav2, borrowKey_available]
    exact Finset.insert_erase hK
  · rw [hbo2, borrowKey_borrowed]
    exact Finset.erase_insert hKb
  · rw [hlen2, borrowKey_len]
  · rw [hproj2, borrowKey_proj]

/-- The state after badge `"12345678"` from the seeded initial state. -/
def stateAfterBadge : SysState := runOps initState [Op.badge "12345678" 0]

theorem claim_C6_witness :
    (processKeyId (processKeyId stateAfterBadge 5).1 5).1.available_keys =
        stateAfterBadge.available_keys ∧
    (processKeyId (processKeyId stateAfterBadge 5).1 5).1.borrowed_keys =
        stateAfterBadge.borrowed_keys ∧
    (processKeyId (processKeyId stateAfterBadge 5).1 5).1.entries.length =
        stateAfterBadge.entries.length ∧
    (processKeyId (processKeyId stateAfterBadge 5).1 5).1.entries.map
        (fun r => (r.id, r.student_id, r.entry_time)) =
      stateAfterBadge.entries.map (fun r => (r.id, r.student_id, r.entry_time)) :=
  claim_C6_borrow_return_round_trip (u := "12345678")
    (Reachable.step (Op.badge "12345678" 0) Reachable.init) (by decide) (by decide)

theorem get_status_get (s : SysState) (i : Nat) (hi : i < (get_status s).length) :
    (get_status s).get ⟨i, hi⟩ =
      match borrowedDictLookup s.entries (FIRST_KEY_ID + i) with
      | some st => ⟨FIRST_KEY_ID + i, KeyStatus.borrowed, some st⟩
      | none => ⟨FIRST_KEY_ID + i, KeyStatus.available, none⟩ := by
  have hget : (get_status s).get ⟨i, hi⟩ = (get_status s)[i] := rfl
  rw [hget]
  simp only [get_status, List.getElem_map, List.getElem_range', one_mul]

/-- C7: in every reachable state, `get_status` returns exactly
`LAST_KEY_ID - FIRST_KEY_ID + 1` tuples, one per key ID in the configured range in
order, each tagged Borrowed with its occupant student (a student with a Borrowed
entry row for that key) or Available with no occupant, and this partition agrees
with the cache sets `available_keys` / `borrowed_keys`. -/
theorem claim_C7_get_status_partition {s : SysState} (h : Reachable s) :
    (get_status s).length = LAST_KEY_ID - FIRST_KEY_ID + 1 ∧
    ∀ i (hi : i < (get_status s).length),
      ((get_status s).get ⟨i, hi⟩).key_id = FIRST_KEY_ID + i ∧
      ((((get_status s).get ⟨i, hi⟩).status = KeyStatus.borrowed ∧
          FIRST_KEY_ID + i ∈ s.borrowed_keys ∧
          ∃ r ∈ s.entries, r.key_id = some (FIRST_KEY_ID + i) ∧
            r.key_status = some RecStatus.borrowed ∧
            ((get_status s).get ⟨i, hi⟩).student = some r.student_id) ∨
        (((get_status s).get ⟨i, hi⟩).status = KeyStatus.available ∧
          FIRST_KEY_ID + i ∈ s.available_keys ∧
          ((get_status s).get ⟨i, hi⟩).student = none)) := by
  have hinv := inv_of_reachable h
  have hlen : (get_status s).length = LAST_KEY_ID - FIRST_KEY_ID + 1 := by
    unfold get_status
    rw [List.length_map, List.length_range']
  refine ⟨hlen, ?_⟩
  intro i hi
  have hk_range : FIRST_KEY_ID + i ∈ Finset.Icc FIRST_KEY_ID LAST_KEY_ID := by
    rw [hlen] at hi
    rw [Finset.mem_Icc]
    unfold FIRST_KEY_ID LAST_KEY_ID at hi ⊢
    omega
  cases hd : borrowedDictLookup s.entries (FIRST_KEY_ID + i) with
  | none =>
      have hnone := (borrowedDictLookup_eq_none_iff s.entries (FIRST_KEY_ID + i)).mp hd
      have hcnt0 : borrowedCount s.entries (FIRST_KEY_ID + i) = 0 := by
        unfold borrowedCount
        rw [List.length_eq_zero, List.filter_eq_nil_iff]
        intro r hr
        simpa using hnone r hr
      have hnb : FIRST_KEY_ID + i ∉ s.borrowed_keys := by
        intro hmem
        have hc := hinv.cntB (FIRST_KEY_ID + i)
        rw [if_pos hmem] at hc
        omega
      have hav : FIRST_KEY_ID + i ∈ s.available_keys := by
        have hcov : FIRST_KEY_ID + i ∈ s.available_keys ∪ s.borrowed_keys := by
          rw [hinv.cover]
          exact hk_range
        rcases Finset.mem_union.mp hcov with h1 | h2
        · exact h1
        · exact absurd h2 hnb
      rw [get_status_get s i hi, hd]
      exact ⟨rfl, Or.inr ⟨rfl, hav, rfl⟩⟩
  | some st =>
      have hb : FIRST_KEY_ID + i ∈ s.borrowed_keys := by
        by_contra hnb
        have hc := hinv.cntB (FIRST_KEY_ID + i)
        rw [if_neg hnb] at hc
        unfold borrowedCount at hc
        rw [List.length_eq_zero, List.filter_eq_nil_iff] at hc
        have hnone : ∀ r ∈ s.entries, ¬(r.key_id = some (FIRST_KEY_ID + i) ∧
            r.key_status = some RecStatus.borrowed) := by
          intro r hr
          simpa using hc r hr
        have hcontra := (borrowedDictLookup_eq_none_iff _ _).mpr hnone
        rw [hd] at hcontra
        exact Option.noConfusion hcontra
      have hcnt := hinv.cntB (FIRST_KEY_ID + i)
      rw [if_pos hb] at hcnt
      unfold borrowedCount at hcnt
      obtain ⟨r0, hr0⟩ := List.length_eq_one.mp hcnt
      have hlast := borrowedDictLookup_of_unique hr0
      rw [hd] at hlast
      have hstr : st = r0.student_id := Option.some.inj hlast
      have hr0mem : r0 ∈ s.entries.filter fun r =>
          r.key_id = some (FIRST_KEY_ID + i) ∧
            r.key_status = some RecStatus.borrowed := by
        rw [hr0]
        exact List.mem_cons_self _ _
      have hp := List.mem_filter.mp hr0mem
      have hp2 : r0.key_id = some (FIRST_KEY_ID + i) ∧
          r0.key_status = some RecStatus.borrowed := by
        simpa using hp.2
      rw [get_status_get s i hi, hd]
      refine ⟨rfl, Or.inl ⟨rfl, hb, r0, hp.1, hp2.1, hp2.2, ?_⟩⟩
      show some st = some r0.student_id
      rw [hstr]

theorem claim_C7_witness :
    (get_status stateAfterBorrow).length = LAST_KEY_ID - FIRST_KEY_ID + 1 ∧
    ∀ i (hi : i < (get_status stateAfterBorrow).length),
      ((get_status stateAfterBorrow).get ⟨i, hi⟩).key_id = FIRST_KEY_ID + i ∧
      ((((get_status stateAfterBorrow).get ⟨i, hi⟩).status = KeyStatus.borrowed ∧
          FIRST_KEY_ID + i ∈ stateAfterBorrow.borrowed_keys ∧
          ∃ r ∈ stateAfterBorrow.entries, r.key_id = some (FIRST_KEY_ID + i) ∧
            r.key_status = some RecStatus.borrowed ∧
            ((get_status stateAfterBorrow).get ⟨i, hi⟩).student =
              some r.student_id) ∨
        (((get_status stateAfterBorrow).get ⟨i, hi⟩).status = KeyStatus.available ∧
          FIRST_KEY_ID + i ∈ stateAfterBorrow.available_keys ∧
          ((get_status stateAfterBorrow).get ⟨i, hi⟩).student = none)) :=
  claim_C7_get_status_partition
    (Reachable.step (Op.key 5) (Reachable.step (Op.badge "12345678" 0) Reachable.init))

/-- C2 counterexample: starting from the seeded initial state, badge `"12345678"`
inserts row 1 with null key fields; borrowing key 5 rewrites its key fields to
`(5, Borrowed)`; returning key 5 rewrites the same row a second time to
`(5, Returned)`; and borrowing key 7 rewrites the row a third time to
`(7, Borrowed)` — so a `student_entries` row is rewritten in place more than once
and a row whose `key_status` is already `'Returned'` is overwritten by a later
borrow, contrary to the claim. -/
theorem claim_C2_cex :
    (runOps initState [Op.badge "12345678" 0, Op.key 5]).entries =
      [⟨1, "12345678", 0, some 5, some RecStatus.borrowed⟩] ∧
    (runOps initState [Op.badge "12345678" 0, Op.key 5, Op.key 5]).entries =
      [⟨1, "12345678", 0, some 5, some RecStatus.returned⟩] ∧
    (runOps initState [Op.badge "12345678" 0, Op.key 5, Op.key 5, Op.key 7]).entries =
      [⟨1, "12345678", 0, some 7, some RecStatus.borrowed⟩] := by
  decide

/-- C2 amended: every EntryRecord row is written at badge scan with null key
fields, and every later mutation is an in-place rewrite of the key fields only
(id, student and entry time are preserved; rows are never deleted): a borrow
rewrites a row whose `key_status` is null or `'Returned'` — so a Returned row may
be overwritten by a later borrow — and a return rewrites a row whose
`key_status` is `'Borrowed'`; such key-field rewrites may hit the same row more
than once over the row's lifetime. -/
theorem claim_C2_amended_key_field_updates (s : SysState) (op : Op) :
    (∃ sid t, op = Op.badge sid t ∧
      (applyOp s op).entries = s.entries ++ [⟨s.next_id, sid, t, none, none⟩]) ∨
    (applyOp s op).entries = s.entries ∨
    (∃ k tgt, tgt ∈ s.entries ∧
      ((tgt.key_status = none ∨ tgt.key_status = some RecStatus.returned) ∧
        (applyOp s op).entries =
          setKeyFields s.entries tgt.id (some k) (some RecStatus.borrowed) ∨
       (tgt.key_status = some RecStatus.borrowed ∧
        (applyOp s op).entries =
          setKeyFields s.entries tgt.id (some k) (some RecStatus.returned)))) := by
  cases op with
  | badge sid t => exact Or.inl ⟨sid, t, rfl, rfl⟩
  | key k =>
      by_cases hs : hasNoSession s = true
      · refine Or.inr (Or.inl ?_)
        show (processKeyId s k).1.entries = s.entries
        rw [noSession_shape hs]
      · have hs' : hasNoSession s = false := by simpa using hs
        obtain ⟨u, hu, hne⟩ := session_of_not_noSession hs'
        by_cases hkb : k ∈ s.borrowed_keys
        · cases htgt : returnTarget s.entries k with
          | none =>
              refine Or.inr (Or.inl ?_)
              show (processKeyId s k).1.entries = s.entries
              rw [return_shape_noTarget hs' hkb htgt]
          | some tgt =>
              obtain ⟨hmem, -, hstt⟩ := returnTarget_props htgt
              refine Or.inr (Or.inr ⟨k, tgt, hmem, Or.inr ⟨hstt, ?_⟩⟩)
              show (processKeyId s k).1.entries = _
              rw [return_shape hs' hkb htgt]
        · by_cases hka : k ∈ s.available_keys
          · have hbk : (processKeyId s k).1.entries = s.entries ∨
                processKeyId s k = borrowKey s u k := by
              cases hf : activeBorrowedFetch s.entries u with
              | some held =>
                  by_cases hheld : held = some k
                  · exact Or.inr (borrow_shape_heldSame hs' hu hkb hka hf hheld)
                  · left
                    rw [already_shape hs' hu hkb hka hf hheld]
              | none => exact Or.inr (borrow_shape_fetchNone hs' hu hkb hka hf)
            rcases hbk with heq | heq
            · exact Or.inr (Or.inl heq)
            · rcases borrowKey_entries s u k with hent | ⟨tgt, htgt, hent⟩
              · refine Or.inr (Or.inl ?_)
                show (processKeyId s k).1.entries = s.entries
                rw [heq]
                exact hent
              · obtain ⟨hmem, -, hstt⟩ := borrowTarget_props htgt
                refine Or.inr (Or.inr ⟨k, tgt, hmem, Or.inl ⟨hstt, ?_⟩⟩)
                show (processKeyId s k).1.entries = _
                rw [heq]
                exact hent
          · refine Or.inr (Or.inl ?_)
            show (processKeyId s k).1.entries = s.entries
            rw [neither_shape hs' hkb hka]

/-- C8: scanning badge `"12345678"`, borrowing key 5 and returning key 5 issues the
mirror writes `[(5, Borrowed), (5, Available)]` in that order, but since
`_update_key_status_in_db` hands each write to its own fire-and-forget daemon
thread, the commit order may be any permutation of the issue order: the
`key_status` mirror can end at `'Borrowed'` although the last-issued write for
key 5 was `'Available'`, violating the required per-key last-write-wins ordering. -/
theorem claim_C8_mirror_reorder :
    (runOps initState [Op.badge "12345678" 0, Op.key 5, Op.key 5]).pending_writes =
      [(5, KeyStatus.borrowed), (5, KeyStatus.available)] ∧
    ∃ db' : Nat → Option KeyStatus,
      MirrorOutcome [(5, KeyStatus.borrowed), (5, KeyStatus.available)]
        (fun _ => none) db' ∧
      db' 5 = some KeyStatus.borrowed ∧ db' 5 ≠ some KeyStatus.available := by
  refine ⟨by decide, ?_⟩
  refine ⟨applyWrites (fun _ => none)
      [(5, KeyStatus.available), (5, KeyStatus.borrowed)],
    ⟨[(5, KeyStatus.available), (5, KeyStatus.borrowed)],
      List.Perm.swap (5, KeyStatus.borrowed) (5, KeyStatus.available) [], rfl⟩,
    rfl, by decide⟩

end LibraryKey
